import Mathlib

/-!
Verification development for the Akita origin-statistics core
(`src/data/AkitaOriginStats.js`).

The JavaScript class `AkitaOriginStats` is shallowly embedded here:
its mutable fields become a Lean structure, its methods become pure
functions returning the updated structure, and the JavaScript objects
used as maps (`topOriginsMap`, `needsSomeLoveMap`, `totalSentAssetsMap`)
become functions into `Option` (a key whose value is `undefined` or
absent is `none`, matching the `!map[key]` truthiness tests of the
source).  JavaScript numbers are modelled as `Int` and the few places
where `isNaN` coercion matters use an explicit value type `JSNum`.
-/

namespace Akita

/-- The nested `originVisitData` object of an `AkitaOriginData` entry;
only its `timeSpentAtOrigin` field is read by this core. -/
structure AkitaOriginVisitData where
  timeSpentAtOrigin : Int
deriving DecidableEq

/-- An origin record as read by `AkitaOriginStats`: the origin identifier,
the currently-monetized flag, and the nested visit data. -/
structure AkitaOriginData where
  origin : String
  isCurrentlyMonetized : Bool
  originVisitData : AkitaOriginVisitData
deriving DecidableEq

/-- Time-spent value of an origin record (`originVisitData.timeSpentAtOrigin`). -/
def timeSpentOf (originData : AkitaOriginData) : Int :=
  originData.originVisitData.timeSpentAtOrigin

/-- `ORIGIN_RANKING_FIRST = 1` in the source. -/
def ORIGIN_RANKING_FIRST : Nat := 1

/-- `ORIGIN_RANKING_LAST = 5` in the source. -/
def ORIGIN_RANKING_LAST : Nat := 5

/-- The `topOriginsMap` object, keyed by ranking.  A ranking with no entry
(or whose entry was set to `undefined` by `reorderTopOriginsMap`) is `none`. -/
abbrev TopOriginsMap := Nat → Option AkitaOriginData

/-- The all-empty `topOriginsMap` (`{}` in the source). -/
def emptyTopOriginsMap : TopOriginsMap := fun _ => none

/-- `contenderBattlesOriginAt(ranking, timeSpentAtContender)`: returns the
first ranking, starting the scan at `ranking`, that is past the board
(`ranking > ORIGIN_RANKING_LAST`), unoccupied, or occupied by a holder whose
time spent is strictly below the contender's; otherwise recurses at
`ranking + 1`. -/
def contenderBattlesOriginAt (topOriginsMap : TopOriginsMap) (ranking : Nat)
    (timeSpentAtContender : Int) : Nat :=
  if _h : ranking > ORIGIN_RANKING_LAST then
    ranking
  else
    match topOriginsMap ranking with
    | none => ranking
    | some holder =>
      if timeSpentAtContender > holder.originVisitData.timeSpentAtOrigin then
        ranking
      else
        contenderBattlesOriginAt topOriginsMap (ranking + 1) timeSpentAtContender
termination_by ORIGIN_RANKING_LAST + 1 - ranking
decreasing_by
  simp only [ORIGIN_RANKING_LAST] at *
  omega

/-- `reorderTopOriginsMap(ranking, replacementOrigin)`: while
`ranking <= ORIGIN_RANKING_LAST`, writes the replacement into the slot at
`ranking` and recursively pushes the previous holder of that slot into the
next ranking; the value pushed out of ranking `ORIGIN_RANKING_LAST` is
dropped. -/
def reorderTopOriginsMap (topOriginsMap : TopOriginsMap) (ranking : Nat)
    (replacementOrigin : Option AkitaOriginData) : TopOriginsMap :=
  if h : ranking ≤ ORIGIN_RANKING_LAST then
    let currentOrigin := topOriginsMap ranking
    reorderTopOriginsMap
      (fun r => if r = ranking then replacementOrigin else topOriginsMap r)
      (ranking + 1) currentOrigin
  else
    topOriginsMap
termination_by ORIGIN_RANKING_LAST + 1 - ranking
decreasing_by
  simp only [ORIGIN_RANKING_LAST] at *
  omega

/-- `maybeUpdateTopOriginsMap(topOriginsContender)`: the board's
`considerCandidate` operation.  Non-monetized or non-positive-time
contenders are ignored; otherwise the placement ranking is computed by
`contenderBattlesOriginAt` starting at `ORIGIN_RANKING_FIRST` and the
contender is discarded, placed into an empty slot, overwritten over itself,
or inserted with a cascading shift via `reorderTopOriginsMap`. -/
def maybeUpdateTopOriginsMap (topOriginsMap : TopOriginsMap)
    (topOriginsContender : AkitaOriginData) : TopOriginsMap :=
  if topOriginsContender.isCurrentlyMonetized then
    let timeSpentAtContender := topOriginsContender.originVisitData.timeSpentAtOrigin
    if timeSpentAtContender > 0 then
      let ranking :=
        contenderBattlesOriginAt topOriginsMap ORIGIN_RANKING_FIRST timeSpentAtContender
      if ranking > ORIGIN_RANKING_LAST then
        topOriginsMap
      else
        match topOriginsMap ranking with
        | none =>
          fun r => if r = ranking then some topOriginsContender else topOriginsMap r
        | some holder =>
          if topOriginsContender.origin = holder.origin then
            fun r => if r = ranking then some topOriginsContender else topOriginsMap r
          else
            reorderTopOriginsMap topOriginsMap ranking (some topOriginsContender)
    else
      topOriginsMap
  else
    topOriginsMap

/-- Folding a sequence of contenders through the board, starting empty. -/
def runCandidates (contenders : List AkitaOriginData) : TopOriginsMap :=
  contenders.foldl maybeUpdateTopOriginsMap emptyTopOriginsMap

/-- Helper to build a monetized contender record. -/
def mkContender (origin : String) (timeSpent : Int) : AkitaOriginData :=
  { origin := origin, isCurrentlyMonetized := true,
    originVisitData := { timeSpentAtOrigin := timeSpent } }

/-- The condition under which `contenderBattlesOriginAt` stops at `ranking`:
past the board, an empty slot, or a holder strictly beaten by the contender. -/
def battleStop (topOriginsMap : TopOriginsMap) (timeSpentAtContender : Int)
    (ranking : Nat) : Prop :=
  ORIGIN_RANKING_LAST < ranking ∨ topOriginsMap ranking = none ∨
    ∃ holder, topOriginsMap ranking = some holder ∧
      timeSpentAtContender > timeSpentOf holder

/-- Occupied ranks of the board form an initial segment: a rank in `1..5` that
is occupied has every rank above it (down to 1) occupied too. -/
def boardContiguous (topOriginsMap : TopOriginsMap) : Prop :=
  ∀ r₁ r₂, 1 ≤ r₁ → r₁ ≤ r₂ → r₂ ≤ ORIGIN_RANKING_LAST →
    topOriginsMap r₂ ≠ none → topOriginsMap r₁ ≠ none

/-- Occupied ranks carry non-increasing time-spent values as the rank index
grows. -/
def boardSorted (topOriginsMap : TopOriginsMap) : Prop :=
  ∀ r₁ r₂ e₁ e₂, 1 ≤ r₁ → r₁ ≤ r₂ → r₂ ≤ ORIGIN_RANKING_LAST →
    topOriginsMap r₁ = some e₁ → topOriginsMap r₂ = some e₂ →
    timeSpentOf e₂ ≤ timeSpentOf e₁

/-- The inductive board invariant: occupied ranks form an initial segment and
carry non-increasing time-spent values. -/
def boardInv (topOriginsMap : TopOriginsMap) : Prop :=
  boardContiguous topOriginsMap ∧ boardSorted topOriginsMap

/-- Number of recursive self-calls performed by `contenderBattlesOriginAt`,
mirroring its recursion structure (the rank argument strictly increases and
the recursion stops once it exceeds `ORIGIN_RANKING_LAST`). -/
def contenderBattleSteps (topOriginsMap : TopOriginsMap) (ranking : Nat)
    (timeSpentAtContender : Int) : Nat :=
  if _h : ranking > ORIGIN_RANKING_LAST then
    0
  else
    match topOriginsMap ranking with
    | none => 0
    | some holder =>
      if timeSpentAtContender > holder.originVisitData.timeSpentAtOrigin then 0
      else contenderBattleSteps topOriginsMap (ranking + 1) timeSpentAtContender + 1
termination_by ORIGIN_RANKING_LAST + 1 - ranking
decreasing_by
  simp only [ORIGIN_RANKING_LAST] at *
  omega

/-- Number of slot writes (shift steps) performed by `reorderTopOriginsMap`,
mirroring its recursion structure. -/
def reorderSteps (ranking : Nat) : Nat :=
  if _h : ranking ≤ ORIGIN_RANKING_LAST then reorderSteps (ranking + 1) + 1
  else 0
termination_by ORIGIN_RANKING_LAST + 1 - ranking
decreasing_by
  simp only [ORIGIN_RANKING_LAST] at *
  omega

/-- A JavaScript numeric argument as seen by the `isNaN` guard of
`updateAssetsMapWithAsset`: `null` (the destructuring default for a missing
property, which `isNaN` coerces to the number 0), an actual number, or a
value that coerces to NaN (for example a non-numeric string). -/
inductive JSNum where
  | null
  | num (n : Int)
  | nan
deriving DecidableEq

/-- JavaScript `isNaN` on a `JSNum`: `isNaN(null)` is `false` because `null`
coerces to 0; a number is not NaN; a NaN-coercing value is. -/
def jsIsNaN : JSNum → Bool
  | JSNum.null => false
  | JSNum.num _ => false
  | JSNum.nan => true

/-- Numeric coercion used once a value has passed the `isNaN` guard
(`null` coerces to 0; `nan` never reaches arithmetic on the guarded path). -/
def JSNum.toInt : JSNum → Int
  | JSNum.null => 0
  | JSNum.num n => n
  | JSNum.nan => 0

/-- JavaScript truthiness of the `assetCode` argument: a missing code
(`null`) and the empty string are falsy, any other string is truthy. -/
def jsTruthyCode : Option String → Bool
  | none => false
  | some s => s ≠ ""

/-- The destructured argument object of `updateAssetsMapWithAsset`; each of
`amount`, `assetScale` and `assetCode` defaults to `null` when missing. -/
structure PaymentData where
  paymentPointer : Option String
  amount : JSNum
  assetScale : JSNum
  assetCode : Option String
deriving DecidableEq

/-- Modelled from the spec: the `WebMonetizationAsset` class is not under
`src/`; per the spec it keeps, per currency code, a normalized total amount
together with the decimal scale at which that amount is expressed. -/
structure WebMonetizationAsset where
  assetCode : String
  assetScale : Int
  amount : Int
deriving DecidableEq

/-- Modelled from the spec: `new WebMonetizationAsset(assetCode)` creates a
zero-valued entry for a currency code on first sighting. -/
def WebMonetizationAsset.new (assetCode : String) : WebMonetizationAsset :=
  { assetCode := assetCode, assetScale := 0, amount := 0 }

/-- Modelled from the spec: `addAmount(amount, scale)` converts the incoming
pair into the entry's normalized representation and adds, using lossless
integer-amount times ten-to-the-power arithmetic at the larger of the two
scales. -/
def WebMonetizationAsset.addAmount (a : WebMonetizationAsset)
    (amount assetScale : JSNum) : WebMonetizationAsset :=
  let s : Int := assetScale.toInt
  let newScale : Int := max a.assetScale s
  { assetCode := a.assetCode,
    assetScale := newScale,
    amount := a.amount * 10 ^ (newScale - a.assetScale).toNat +
      amount.toInt * 10 ^ (newScale - s).toNat }

/-- The mutable state of an `AkitaOriginStats` instance. -/
structure AkitaOriginStats where
  totalTimeSpent : Int
  totalMonetizedTimeSpent : Int
  totalVisits : Int
  totalMonetizedVisits : Int
  topOriginsMap : TopOriginsMap
  needsSomeLoveMap : String → Option AkitaOriginData
  totalSentAssetsMap : String → Option WebMonetizationAsset

/-- A freshly constructed `AkitaOriginStats` (all totals 0, all maps `{}`). -/
def AkitaOriginStats.new : AkitaOriginStats :=
  { totalTimeSpent := 0, totalMonetizedTimeSpent := 0, totalVisits := 0,
    totalMonetizedVisits := 0, topOriginsMap := fun _ => none,
    needsSomeLoveMap := fun _ => none, totalSentAssetsMap := fun _ => none }

/-- `updateTotalTimeSpent(recentTimeSpent)`. -/
def updateTotalTimeSpent (stats : AkitaOriginStats) (recentTimeSpent : Int) :
    AkitaOriginStats :=
  { stats with totalTimeSpent := stats.totalTimeSpent + recentTimeSpent }

/-- `updateTotalMonetizedTimeSpent(recentTimeSpent)`. -/
def updateTotalMonetizedTimeSpent (stats : AkitaOriginStats)
    (recentTimeSpent : Int) : AkitaOriginStats :=
  { stats with
    totalMonetizedTimeSpent := stats.totalMonetizedTimeSpent + recentTimeSpent }

/-- `updateTimeSpent(recentTimeSpent, originData)`: always submits the record
to the top-origins board, always updates the overall total, and updates the
monetized total only when the record is currently monetized. -/
def updateTimeSpent (stats : AkitaOriginStats) (recentTimeSpent : Int)
    (originData : AkitaOriginData) : AkitaOriginStats :=
  let stats₁ :=
    { stats with
      topOriginsMap := maybeUpdateTopOriginsMap stats.topOriginsMap originData }
  let stats₂ := updateTotalTimeSpent stats₁ recentTimeSpent
  if originData.isCurrentlyMonetized then
    updateTotalMonetizedTimeSpent stats₂ recentTimeSpent
  else
    stats₂

/-- `incrementTotalVisits()`. -/
def incrementTotalVisits (stats : AkitaOriginStats) : AkitaOriginStats :=
  { stats with totalVisits := stats.totalVisits + 1 }

/-- `incrementTotalMonetizedVisits()`. -/
def incrementTotalMonetizedVisits (stats : AkitaOriginStats) : AkitaOriginStats :=
  { stats with totalMonetizedVisits := stats.totalMonetizedVisits + 1 }

/-- `incrementVisits(originisCurrentlyMonetized)`. -/
def incrementVisits (stats : AkitaOriginStats)
    (originisCurrentlyMonetized : Bool) : AkitaOriginStats :=
  let stats₁ :=
    if originisCurrentlyMonetized then incrementTotalMonetizedVisits stats
    else stats
  incrementTotalVisits stats₁

/-- `updateAssetsMapWithAsset({paymentPointer, amount, assetScale, assetCode})`:
guarded by `!isNaN(amount) && !isNaN(assetScale) && assetCode`; on success the
entry for the code is created if missing and `addAmount` is applied to it. -/
def updateAssetsMapWithAsset (stats : AkitaOriginStats)
    (paymentData : PaymentData) : AkitaOriginStats :=
  if !jsIsNaN paymentData.amount && !jsIsNaN paymentData.assetScale &&
      jsTruthyCode paymentData.assetCode then
    let assetCode := paymentData.assetCode.getD ""
    let m := stats.totalSentAssetsMap
    let m₁ : String → Option WebMonetizationAsset :=
      match m assetCode with
      | none =>
        fun k => if k = assetCode then some (WebMonetizationAsset.new assetCode)
                 else m k
      | some _ => m
    let m₂ : String → Option WebMonetizationAsset :=
      fun k =>
        if k = assetCode then
          (m₁ k).map fun a =>
            a.addAmount paymentData.amount paymentData.assetScale
        else m₁ k
    { stats with totalSentAssetsMap := m₂ }
  else
    stats

/-- A value held at a key of a plain JavaScript object loaded from storage:
the key may be absent, hold `null` (or another falsy value), or hold a real
entry.  Used to model the input of `AkitaOriginStats.fromObject`. -/
inductive JVal (α : Type) where
  | absent
  | jnull
  | jval (a : α)
deriving DecidableEq

/-- The plain object accepted by `AkitaOriginStats.fromObject`: same fields
as `AkitaOriginStats`, but map entries may be `null`. -/
structure AkitaOriginStatsObj where
  totalTimeSpent : Int
  totalMonetizedTimeSpent : Int
  totalVisits : Int
  totalMonetizedVisits : Int
  topOriginsMap : Nat → JVal AkitaOriginData
  needsSomeLoveMap : String → JVal AkitaOriginData
  totalSentAssetsMap : String → JVal WebMonetizationAsset

/-- Modelled from the spec: `AkitaOriginData.fromObject` is not under `src/`;
per the spec, reconstruction deep-copies nested structures field by field. -/
def AkitaOriginData.fromObject (akitaOriginData : AkitaOriginData) :
    AkitaOriginData :=
  { origin := akitaOriginData.origin,
    isCurrentlyMonetized := akitaOriginData.isCurrentlyMonetized,
    originVisitData :=
      { timeSpentAtOrigin := akitaOriginData.originVisitData.timeSpentAtOrigin } }

/-- Modelled from the spec: `WebMonetizationAsset.fromObject` is not under
`src/`; per the spec it deep-copies the entry's fields.  A `null` input
(`none` here) is passed to it unguarded by `AkitaOriginStats.fromObject`;
the spec leaves that malformed case undefined, and it is modelled as
producing an empty asset. -/
def WebMonetizationAsset.fromObject : Option WebMonetizationAsset →
    WebMonetizationAsset
  | some a =>
    { assetCode := a.assetCode, assetScale := a.assetScale, amount := a.amount }
  | none => { assetCode := "", assetScale := 0, amount := 0 }

/-- `AkitaOriginStats.fromObject(akitaOriginStats)`: copies the four totals,
copies each truthy entry of `topOriginsMap` and `needsSomeLoveMap` through
`AkitaOriginData.fromObject` (a falsy entry is silently dropped), and passes
every present entry of `totalSentAssetsMap` — truthy or not — through
`WebMonetizationAsset.fromObject` without a guard. -/
def AkitaOriginStats.fromObject (akitaOriginStats : AkitaOriginStatsObj) :
    AkitaOriginStats :=
  { totalTimeSpent := akitaOriginStats.totalTimeSpent,
    totalMonetizedTimeSpent := akitaOriginStats.totalMonetizedTimeSpent,
    totalVisits := akitaOriginStats.totalVisits,
    totalMonetizedVisits := akitaOriginStats.totalMonetizedVisits,
    topOriginsMap := fun r =>
      match akitaOriginStats.topOriginsMap r with
      | JVal.jval a => some (AkitaOriginData.fromObject a)
      | _ => none,
    needsSomeLoveMap := fun k =>
      match akitaOriginStats.needsSomeLoveMap k with
      | JVal.jval a => some (AkitaOriginData.fromObject a)
      | _ => none,
    totalSentAssetsMap := fun k =>
      match akitaOriginStats.totalSentAssetsMap k with
      | JVal.absent => none
      | JVal.jnull => some (WebMonetizationAsset.fromObject none)
      | JVal.jval a => some (WebMonetizationAsset.fromObject (some a)) }

/-- Modelled from the spec: serialization of an instance to "a plain
structural form" for browser storage; an occupied slot serializes to its
entry and an empty slot to an absent key. -/
def AkitaOriginStats.toObject (stats : AkitaOriginStats) : AkitaOriginStatsObj :=
  { totalTimeSpent := stats.totalTimeSpent,
    totalMonetizedTimeSpent := stats.totalMonetizedTimeSpent,
    totalVisits := stats.totalVisits,
    totalMonetizedVisits := stats.totalMonetizedVisits,
    topOriginsMap := fun r =>
      match stats.topOriginsMap r with
      | some a => JVal.jval a
      | none => JVal.absent,
    needsSomeLoveMap := fun k =>
      match stats.needsSomeLoveMap k with
      | some a => JVal.jval a
      | none => JVal.absent,
    totalSentAssetsMap := fun k =>
      match stats.totalSentAssetsMap k with
      | some a => JVal.jval a
      | none => JVal.absent }

/-- A ranking at which the scan does not stop is a slot in `1..5` occupied by
a holder whose time spent is at least the contender's. -/
theorem not_battleStop {topOriginsMap : TopOriginsMap} {t : Int} {j : Nat}
    (h : ¬ battleStop topOriginsMap t j) :
    j ≤ ORIGIN_RANKING_LAST ∧
      ∃ holder, topOriginsMap j = some holder ∧ t ≤ timeSpentOf holder := by
  unfold battleStop at h
  push_neg at h
  obtain ⟨h1, h2, h3⟩ := h
  refine ⟨by omega, ?_⟩
  cases hmj : topOriginsMap j with
  | none => exact absurd hmj h2
  | some holder => exact ⟨holder, rfl, h3 holder hmj⟩

/-- `contenderBattlesOriginAt` returns the least stopping ranking at or after
its starting ranking, and that ranking never exceeds `max ranking 6`. -/
theorem contenderBattlesOriginAt_spec (topOriginsMap : TopOriginsMap) (t : Int) :
    ∀ fuel ranking, 6 ≤ ranking + fuel →
      ranking ≤ contenderBattlesOriginAt topOriginsMap ranking t ∧
      contenderBattlesOriginAt topOriginsMap ranking t ≤ max ranking 6 ∧
      battleStop topOriginsMap t (contenderBattlesOriginAt topOriginsMap ranking t) ∧
      ∀ j, ranking ≤ j → j < contenderBattlesOriginAt topOriginsMap ranking t →
        ¬ battleStop topOriginsMap t j := by
  intro fuel
  induction fuel with
  | zero =>
    intro ranking hr
    rw [contenderBattlesOriginAt]
    rw [dif_pos (by simp only [ORIGIN_RANKING_LAST]; omega)]
    refine ⟨le_refl _, by omega, Or.inl (by simp only [ORIGIN_RANKING_LAST]; omega), ?_⟩
    intro j hj1 hj2
    omega
  | succ fuel ih =>
    intro ranking hr
    by_cases hlast : ranking > ORIGIN_RANKING_LAST
    · rw [contenderBattlesOriginAt, dif_pos hlast]
      refine ⟨le_refl _, ?_, Or.inl hlast, ?_⟩
      · simp only [ORIGIN_RANKING_LAST] at hlast; omega
      · intro j hj1 hj2; omega
    · cases hmr : topOriginsMap ranking with
      | none =>
        rw [contenderBattlesOriginAt, dif_neg hlast]
        simp only [hmr]
        refine ⟨le_refl _, ?_, Or.inr (Or.inl hmr), ?_⟩
        · simp only [ORIGIN_RANKING_LAST] at hlast; omega
        · intro j hj1 hj2; omega
      | some holder =>
        rw [contenderBattlesOriginAt, dif_neg hlast]
        simp only [hmr]
        by_cases hbeat : t > holder.originVisitData.timeSpentAtOrigin
        · rw [if_pos hbeat]
          refine ⟨le_refl _, ?_, Or.inr (Or.inr ⟨holder, hmr, hbeat⟩), ?_⟩
          · simp only [ORIGIN_RANKING_LAST] at hlast; omega
          · intro j hj1 hj2; omega
        · rw [if_neg hbeat]
          have hr' : 6 ≤ (ranking + 1) + fuel := by omega
          obtain ⟨ih1, ih2, ih3, ih4⟩ := ih (ranking + 1) hr'
          refine ⟨by omega, ?_, ih3, ?_⟩
          · simp only [ORIGIN_RANKING_LAST] at hlast ⊢
            omega
          · intro j hj1 hj2
            rcases Nat.eq_or_lt_of_le hj1 with hj | hj
            · subst hj
              intro hstop
              rcases hstop with h5 | hnone | ⟨holder2, hh2, hbeat2⟩
              · exact hlast h5
              · rw [hmr] at hnone; exact Option.noConfusion hnone
              · rw [hmr] at hh2
                injection hh2 with hsame
                subst hsame
                exact hbeat (by exact hbeat2)
            · exact ih4 j (by omega) hj2

/-- The properties of the rank search, instantiated with enough fuel. -/
theorem contenderBattlesOriginAt_props (topOriginsMap : TopOriginsMap) (t : Int)
    (ranking : Nat) :
    ranking ≤ contenderBattlesOriginAt topOriginsMap ranking t ∧
    contenderBattlesOriginAt topOriginsMap ranking t ≤ max ranking 6 ∧
    battleStop topOriginsMap t (contenderBattlesOriginAt topOriginsMap ranking t) ∧
    ∀ j, ranking ≤ j → j < contenderBattlesOriginAt topOriginsMap ranking t →
      ¬ battleStop topOriginsMap t j :=
  contenderBattlesOriginAt_spec topOriginsMap t 6 ranking (by omega)

/-- Pointwise description of the cascade: ranks before the insertion point and
past the board are untouched, the insertion rank holds the replacement, and
every rank after it (up to 5) holds the previous occupant of the rank above. -/
theorem reorderTopOriginsMap_spec :
    ∀ fuel ranking, 6 ≤ ranking + fuel →
      ∀ (topOriginsMap : TopOriginsMap) (x : Option AkitaOriginData) (j : Nat),
        reorderTopOriginsMap topOriginsMap ranking x j =
          if j < ranking ∨ ORIGIN_RANKING_LAST < j then topOriginsMap j
          else if j = ranking then x
          else topOriginsMap (j - 1) := by
  intro fuel
  induction fuel with
  | zero =>
    intro ranking hr topOriginsMap x j
    rw [reorderTopOriginsMap]
    rw [dif_neg (by simp only [ORIGIN_RANKING_LAST]; omega)]
    simp only [ORIGIN_RANKING_LAST]
    split
    · rfl
    · omega
  | succ fuel ih =>
    intro ranking hr topOriginsMap x j
    rw [reorderTopOriginsMap]
    by_cases hlast : ranking ≤ ORIGIN_RANKING_LAST
    · rw [dif_pos hlast]
      simp only [ORIGIN_RANKING_LAST] at hlast
      rw [ih (ranking + 1) (by omega)]
      simp only [ORIGIN_RANKING_LAST]
      split_ifs <;> first | rfl | (congr 1; omega)
    · rw [dif_neg hlast]
      simp only [ORIGIN_RANKING_LAST] at hlast ⊢
      split
      · rfl
      · omega

/-- Pointwise description of the cascade, instantiated with enough fuel. -/
theorem reorderTopOriginsMap_eq (topOriginsMap : TopOriginsMap) (ranking : Nat)
    (x : Option AkitaOriginData) (j : Nat) :
    reorderTopOriginsMap topOriginsMap ranking x j =
      if j < ranking ∨ ORIGIN_RANKING_LAST < j then topOriginsMap j
      else if j = ranking then x
      else topOriginsMap (j - 1) :=
  reorderTopOriginsMap_spec 6 ranking (by omega) topOriginsMap x j

/-- The empty board satisfies the invariant. -/
theorem boardInv_empty : boardInv emptyTopOriginsMap := by
  constructor
  · intro r₁ r₂ _ _ _ h
    exact absurd rfl h
  · intro r₁ r₂ e₁ e₂ _ _ _ h₁ _
    exact absurd h₁ (by simp [emptyTopOriginsMap])

/-- One `maybeUpdateTopOriginsMap` step preserves the board invariant. -/
theorem boardInv_maybeUpdate (topOriginsMap : TopOriginsMap)
    (c : AkitaOriginData) (hinv : boardInv topOriginsMap) :
    boardInv (maybeUpdateTopOriginsMap topOriginsMap c) := by
  obtain ⟨hcont, hsort⟩ := hinv
  unfold maybeUpdateTopOriginsMap
  by_cases hmon : c.isCurrentlyMonetized
  · rw [if_pos hmon]
    by_cases hpos : c.originVisitData.timeSpentAtOrigin > 0
    · rw [if_pos hpos]
      obtain ⟨hR1, hR6, hstop, hmin⟩ :=
        contenderBattlesOriginAt_props topOriginsMap
          c.originVisitData.timeSpentAtOrigin ORIGIN_RANKING_FIRST
      set R := contenderBattlesOriginAt topOriginsMap ORIGIN_RANKING_FIRST
        c.originVisitData.timeSpentAtOrigin with hRdef
      simp only [ORIGIN_RANKING_FIRST] at hR1 hR6 hmin
      have habove : ∀ j, 1 ≤ j → j < R → ∃ holder, topOriginsMap j = some holder ∧
          c.originVisitData.timeSpentAtOrigin ≤ timeSpentOf holder := by
        intro j hj1 hj2
        exact (not_battleStop (hmin j hj1 hj2)).2
      by_cases hR5 : R > ORIGIN_RANKING_LAST
      · rw [if_pos hR5]
        exact ⟨hcont, hsort⟩
      · rw [if_neg hR5]
        simp only [ORIGIN_RANKING_LAST] at hR5
        split
        next hmR =>
          -- the contender is placed into the empty slot at R
          have hafter : ∀ j, R ≤ j → j ≤ 5 → topOriginsMap j = none := by
            intro j hj1 hj2
            by_contra hne
            exact (hcont R j (by omega) hj1 (by simp only [ORIGIN_RANKING_LAST]; omega)
              hne) hmR
          constructor
          · intro r₁ r₂ h1 h12 h25 hocc
            simp only [ORIGIN_RANKING_LAST] at h25
            by_cases he2 : r₂ = R
            · by_cases he1 : r₁ = R
              · simp [he1]
              · simp only [if_neg he1]
                obtain ⟨holder, hh, _⟩ := habove r₁ h1 (by omega)
                simp [hh]
            · simp only [if_neg he2] at hocc
              have hr2R : r₂ < R := by
                by_contra hge
                exact hocc (hafter r₂ (by omega) (by omega))
              by_cases he1 : r₁ = R
              · omega
              · simp only [if_neg he1]
                exact hcont r₁ r₂ h1 h12 (by simp only [ORIGIN_RANKING_LAST]; omega) hocc
          · intro r₁ r₂ e₁ e₂ h1 h12 h25 hh1 hh2
            simp only [ORIGIN_RANKING_LAST] at h25
            by_cases he2 : r₂ = R
            · simp only [he2, if_pos rfl] at hh2
              injection hh2 with hh2
              by_cases he1 : r₁ = R
              · simp only [he1, if_pos rfl] at hh1
                injection hh1 with hh1
                subst hh1; subst hh2
                exact le_refl _
              · simp only [if_neg he1] at hh1
                obtain ⟨holder, hh, hle⟩ := habove r₁ h1 (by omega)
                rw [hh] at hh1
                injection hh1 with hh1
                subst hh1; subst hh2
                exact hle
            · simp only [if_neg he2] at hh2
              have hr2R : r₂ < R := by
                by_contra hge
                rw [hafter r₂ (by omega) (by omega)] at hh2
                exact Option.noConfusion hh2
              by_cases he1 : r₁ = R
              · omega
              · simp only [if_neg he1] at hh1
                exact hsort r₁ r₂ e₁ e₂ h1 h12 (by simp only [ORIGIN_RANKING_LAST]; omega)
                  hh1 hh2
        next holder hmR =>
          have hbeat : c.originVisitData.timeSpentAtOrigin > timeSpentOf holder := by
            rcases hstop with h5 | hnone | ⟨holder2, hh2, hb⟩
            · simp only [ORIGIN_RANKING_LAST] at h5; omega
            · rw [hmR] at hnone; exact Option.noConfusion hnone
            · rw [hmR] at hh2
              injection hh2 with hsame
              subst hsame
              exact hb
          by_cases horig : c.origin = holder.origin
          · rw [if_pos horig]
            -- overwrite in place at R
            constructor
            · intro r₁ r₂ h1 h12 h25 hocc
              by_cases he1 : r₁ = R
              · simp [he1]
              · simp only [if_neg he1]
                by_cases he2 : r₂ = R
                · refine hcont r₁ r₂ h1 h12 h25 ?_
                  rw [he2, hmR]
                  exact fun hh => Option.noConfusion hh
                · simp only [if_neg he2] at hocc
                  exact hcont r₁ r₂ h1 h12 h25 hocc
            · intro r₁ r₂ e₁ e₂ h1 h12 h25 hh1 hh2
              by_cases he2 : r₂ = R
              · simp only [he2, if_pos rfl] at hh2
                injection hh2 with hh2
                subst hh2
                by_cases he1 : r₁ = R
                · simp only [he1, if_pos rfl] at hh1
                  injection hh1 with hh1
                  subst hh1
                  exact le_refl _
                · simp only [if_neg he1] at hh1
                  obtain ⟨holder2, hh, hle⟩ := habove r₁ h1 (by omega)
                  rw [hh] at hh1
                  injection hh1 with hh1
                  subst hh1
                  exact hle
              · simp only [if_neg he2] at hh2
                by_cases he1 : r₁ = R
                · simp only [he1, if_pos rfl] at hh1
                  injection hh1 with hh1
                  subst hh1
                  have hRr2 : R ≤ r₂ := by omega
                  have := hsort R r₂ holder e₂ (by omega) hRr2 h25 hmR hh2
                  unfold timeSpentOf at *
                  omega
                · simp only [if_neg he1] at hh1
                  exact hsort r₁ r₂ e₁ e₂ h1 h12 h25 hh1 hh2
          · rw [if_neg horig]
            -- cascading insertion at R
            have hn : ∀ j, reorderTopOriginsMap topOriginsMap R (some c) j =
                if j < R ∨ ORIGIN_RANKING_LAST < j then topOriginsMap j
                else if j = R then some c
                else topOriginsMap (j - 1) := fun j => reorderTopOriginsMap_eq _ _ _ j
            constructor
            · intro r₁ r₂ h1 h12 h25 hocc
              simp only [ORIGIN_RANKING_LAST] at h25
              rw [hn] at hocc ⊢
              simp only [ORIGIN_RANKING_LAST] at hocc ⊢
              by_cases hc1 : r₁ < R
              · rw [if_pos (Or.inl hc1)]
                obtain ⟨holder2, hh, _⟩ := habove r₁ h1 hc1
                simp [hh]
              · by_cases hc2 : r₁ = R
                · rw [if_neg (by omega), if_pos hc2]
                  exact fun hh => Option.noConfusion hh
                · -- R < r₁ ≤ r₂ ≤ 5
                  rw [if_neg (by omega), if_neg hc2]
                  rw [if_neg (by omega), if_neg (by omega)] at hocc
                  exact hcont (r₁ - 1) (r₂ - 1) (by omega) (by omega)
                    (by simp only [ORIGIN_RANKING_LAST]; omega) hocc
            · intro r₁ r₂ e₁ e₂ h1 h12 h25 hh1 hh2
              simp only [ORIGIN_RANKING_LAST] at h25
              rw [hn] at hh1 hh2
              simp only [ORIGIN_RANKING_LAST] at hh1 hh2
              by_cases hc2 : r₂ < R
              · rw [if_pos (Or.inl hc2)] at hh2
                rw [if_pos (Or.inl (by omega))] at hh1
                exact hsort r₁ r₂ e₁ e₂ h1 h12 (by simp only [ORIGIN_RANKING_LAST]; omega)
                  hh1 hh2
              · by_cases hc2' : r₂ = R
                · rw [if_neg (by omega), if_pos hc2'] at hh2
                  injection hh2 with hh2
                  subst hh2
                  by_cases hc1 : r₁ < R
                  · rw [if_pos (Or.inl hc1)] at hh1
                    obtain ⟨holder2, hh, hle⟩ := habove r₁ h1 hc1
                    rw [hh] at hh1
                    injection hh1 with hh1
                    subst hh1
                    exact hle
                  · have hc1' : r₁ = R := by omega
                    rw [if_neg (by omega), if_pos hc1'] at hh1
                    injection hh1 with hh1
                    subst hh1
                    exact le_refl _
                · -- R < r₂ ≤ 5, so e₂ was shifted down from rank r₂ - 1
                  rw [if_neg (by omega), if_neg hc2'] at hh2
                  have hb2 : timeSpentOf e₂ ≤ timeSpentOf holder :=
                    hsort R (r₂ - 1) holder e₂ (by omega) (by omega)
                      (by simp only [ORIGIN_RANKING_LAST]; omega) hmR hh2
                  by_cases hc1 : r₁ < R
                  · rw [if_pos (Or.inl hc1)] at hh1
                    obtain ⟨holder2, hh, hle⟩ := habove r₁ h1 hc1
                    rw [hh] at hh1
                    injection hh1 with hh1
                    subst hh1
                    unfold timeSpentOf at *
                    omega
                  · by_cases hc1' : r₁ = R
                    · rw [if_neg (by omega), if_pos hc1'] at hh1
                      injection hh1 with hh1
                      subst hh1
                      unfold timeSpentOf at *
                      omega
                    · rw [if_neg (by omega), if_neg hc1'] at hh1
                      exact hsort (r₁ - 1) (r₂ - 1) e₁ e₂ (by omega) (by omega)
                        (by simp only [ORIGIN_RANKING_LAST]; omega) hh1 hh2
    · rw [if_neg hpos]
      exact ⟨hcont, hsort⟩
  · rw [if_neg hmon]
    exact ⟨hcont, hsort⟩

/-- Folding any contender list through the board preserves the invariant. -/
theorem boardInv_foldl (contenders : List AkitaOriginData) :
    ∀ topOriginsMap, boardInv topOriginsMap →
      boardInv (contenders.foldl maybeUpdateTopOriginsMap topOriginsMap) := by
  induction contenders with
  | nil => intro m hm; exact hm
  | cons c cs ih =>
    intro m hm
    exact ih (maybeUpdateTopOriginsMap m c) (boardInv_maybeUpdate m c hm)

/-- Any board reachable from the empty board satisfies the invariant. -/
theorem boardInv_runCandidates (contenders : List AkitaOriginData) :
    boardInv (runCandidates contenders) :=
  boardInv_foldl contenders emptyTopOriginsMap boardInv_empty

/-- A board holding a single entry at rank 1 satisfies the invariant. -/
theorem boardInv_single (e : AkitaOriginData) :
    boardInv (fun r => if r = 1 then some e else none) := by
  constructor
  · intro r₁ r₂ h1 h12 _ hocc
    by_cases h : r₂ = 1
    · have h1' : r₁ = 1 := by omega
      simp [h1']
    · simp only [if_neg h] at hocc
      exact absurd rfl hocc
  · intro r₁ r₂ e₁ e₂ h1 h12 _ hh1 hh2
    by_cases h : r₂ = 1
    · have h1' : r₁ = 1 := by omega
      subst h
      subst h1'
      simp only [if_pos] at hh1 hh2
      injection hh1 with hh1
      injection hh2 with hh2
      subst hh1; subst hh2
      exact le_refl _
    · simp only [if_neg h] at hh2
      exact Option.noConfusion hh2

/-- Branch description of `maybeUpdateTopOriginsMap` for a monetized,
positive-time contender, by the shape of the slot at the placement ranking. -/
theorem maybeUpdate_desc (m : TopOriginsMap) (c : AkitaOriginData) (R : Nat)
    (hmon : c.isCurrentlyMonetized = true)
    (hpos : 0 < c.originVisitData.timeSpentAtOrigin)
    (hR : R = contenderBattlesOriginAt m ORIGIN_RANKING_FIRST
      c.originVisitData.timeSpentAtOrigin) :
    (ORIGIN_RANKING_LAST < R → maybeUpdateTopOriginsMap m c = m) ∧
    (m R = none → R ≤ ORIGIN_RANKING_LAST →
      maybeUpdateTopOriginsMap m c = fun j => if j = R then some c else m j) ∧
    (∀ holder, m R = some holder → R ≤ ORIGIN_RANKING_LAST →
      c.origin = holder.origin →
      maybeUpdateTopOriginsMap m c = fun j => if j = R then some c else m j) ∧
    (∀ holder, m R = some holder → R ≤ ORIGIN_RANKING_LAST →
      c.origin ≠ holder.origin →
      maybeUpdateTopOriginsMap m c = reorderTopOriginsMap m R (some c)) := by
  subst hR
  unfold maybeUpdateTopOriginsMap
  rw [if_pos hmon, if_pos hpos]
  refine ⟨?_, ?_, ?_, ?_⟩
  · intro h5
    rw [if_pos h5]
  · intro hnone h5
    rw [if_neg (not_lt.mpr h5)]
    simp only [hnone]
  · intro holder hsome h5 horig
    rw [if_neg (not_lt.mpr h5)]
    simp only [hsome]
    rw [if_pos horig]
  · intro holder hsome h5 horig
    rw [if_neg (not_lt.mpr h5)]
    simp only [hsome]
    rw [if_neg horig]

/-- For a monetized positive-time contender, every rank strictly above the
placement ranking is occupied by a holder with at least the contender's time
spent, and when the board invariant holds and some rank `r` in `1..5` holds
an entry whose time spent is at least the contender's, the placement ranking
lies strictly below `r`. -/
theorem placement_above (m : TopOriginsMap) (c : AkitaOriginData) (R : Nat)
    (hR : R = contenderBattlesOriginAt m ORIGIN_RANKING_FIRST
      c.originVisitData.timeSpentAtOrigin) :
    (∀ j, 1 ≤ j → j < R → ∃ holder, m j = some holder ∧
      c.originVisitData.timeSpentAtOrigin ≤ timeSpentOf holder) ∧
    (∀ r e, boardInv m → 1 ≤ r → r ≤ ORIGIN_RANKING_LAST → m r = some e →
      c.originVisitData.timeSpentAtOrigin ≤ timeSpentOf e → r < R) := by
  obtain ⟨hR1, hR6, hstop, hmin⟩ :=
    contenderBattlesOriginAt_props m c.originVisitData.timeSpentAtOrigin
      ORIGIN_RANKING_FIRST
  rw [← hR] at hR1 hR6 hstop hmin
  simp only [ORIGIN_RANKING_FIRST] at hR1 hR6 hmin
  constructor
  · intro j hj1 hj2
    exact (not_battleStop (hmin j hj1 hj2)).2
  · intro r e hinv hr1 hr5 hre hle
    obtain ⟨hcont, hsort⟩ := hinv
    by_contra hge
    have hRr : R ≤ r := by omega
    rcases hstop with h5 | hnone | ⟨holder, hh, hbeat⟩
    · simp only [ORIGIN_RANKING_LAST] at h5 hr5
      omega
    · have : m R ≠ none :=
        hcont R r (by omega) hRr hr5 (by rw [hre]; exact fun hh => Option.noConfusion hh)
      exact this hnone
    · have hse : timeSpentOf e ≤ timeSpentOf holder :=
        hsort R r holder e (by omega) hRr hr5 hh hre
      unfold timeSpentOf at hse hbeat hle
      omega

/-- Ranks strictly above the placement ranking are untouched by
`maybeUpdateTopOriginsMap`. -/
theorem maybeUpdate_untouched (m : TopOriginsMap) (c : AkitaOriginData) (R : Nat)
    (hmon : c.isCurrentlyMonetized = true)
    (hpos : 0 < c.originVisitData.timeSpentAtOrigin)
    (hR : R = contenderBattlesOriginAt m ORIGIN_RANKING_FIRST
      c.originVisitData.timeSpentAtOrigin)
    (r : Nat) (hr : r < R) :
    maybeUpdateTopOriginsMap m c r = m r := by
  obtain ⟨hd1, hd2, hd3, hd4⟩ := maybeUpdate_desc m c R hmon hpos hR
  by_cases h5 : ORIGIN_RANKING_LAST < R
  · rw [hd1 h5]
  · cases hmR : m R with
    | none =>
      simp only [hd2 hmR (by omega)]
      rw [if_neg (by omega)]
    | some holder =>
      by_cases ho : c.origin = holder.origin
      · simp only [hd3 holder hmR (by omega) ho]
        rw [if_neg (by omega)]
      · rw [hd4 holder hmR (by omega) ho, reorderTopOriginsMap_eq,
          if_pos (Or.inl hr)]

/-- When the placement ranking is within the board, the contender ends up in
that slot. -/
theorem maybeUpdate_at_placement (m : TopOriginsMap) (c : AkitaOriginData)
    (R : Nat) (hmon : c.isCurrentlyMonetized = true)
    (hpos : 0 < c.originVisitData.timeSpentAtOrigin)
    (hR : R = contenderBattlesOriginAt m ORIGIN_RANKING_FIRST
      c.originVisitData.timeSpentAtOrigin)
    (hR5 : R ≤ ORIGIN_RANKING_LAST) :
    maybeUpdateTopOriginsMap m c R = some c := by
  obtain ⟨hd1, hd2, hd3, hd4⟩ := maybeUpdate_desc m c R hmon hpos hR
  cases hmR : m R with
  | none =>
    simp only [hd2 hmR hR5]
    rw [if_pos trivial]
  | some holder =>
    by_cases ho : c.origin = holder.origin
    · simp only [hd3 holder hmR hR5 ho]
      rw [if_pos trivial]
    · rw [hd4 holder hmR hR5 ho, reorderTopOriginsMap_eq,
        if_neg (by omega), if_pos rfl]

/-- Claim C2 counterexample: the board holding only origin `"a"` with time
spent 10 at rank 1 is changed by resubmitting origin `"a"` with the identical
time spent 10: rank 2, previously empty, now also holds origin `"a"` — the
rank arrangement is not preserved and the entry is not overwritten in place. -/
theorem c2_counterexample :
    maybeUpdateTopOriginsMap
        (maybeUpdateTopOriginsMap emptyTopOriginsMap (mkContender "a" 10))
        (mkContender "a" 10) 2 = some (mkContender "a" 10) ∧
    maybeUpdateTopOriginsMap emptyTopOriginsMap (mkContender "a" 10) 2 = none := by
  constructor <;>
    simp [maybeUpdateTopOriginsMap, contenderBattlesOriginAt,
      emptyTopOriginsMap, mkContender, ORIGIN_RANKING_FIRST, ORIGIN_RANKING_LAST]

/-- Claim C2 (amended): on a board satisfying the invariant, resubmitting an
origin that already occupies rank `r` with its identical time-spent value is
never an overwrite in place: the placement ranking computed for it lies
strictly below `r`, and the call either leaves the board unchanged (placement
past rank 5) or writes a second copy of the origin at the placement ranking
while the old entry stays at rank `r`. -/
theorem c2_resubmission (m : TopOriginsMap) (c e : AkitaOriginData) (r : Nat)
    (hinv : boardInv m) (h1 : 1 ≤ r) (h5 : r ≤ ORIGIN_RANKING_LAST)
    (he : m r = some e) (_horig : c.origin = e.origin)
    (hmon : c.isCurrentlyMonetized = true)
    (ht : c.originVisitData.timeSpentAtOrigin = timeSpentOf e)
    (hpos : 0 < c.originVisitData.timeSpentAtOrigin) :
    r < contenderBattlesOriginAt m ORIGIN_RANKING_FIRST
      c.originVisitData.timeSpentAtOrigin ∧
    (ORIGIN_RANKING_LAST < contenderBattlesOriginAt m ORIGIN_RANKING_FIRST
        c.originVisitData.timeSpentAtOrigin →
      maybeUpdateTopOriginsMap m c = m) ∧
    (contenderBattlesOriginAt m ORIGIN_RANKING_FIRST
        c.originVisitData.timeSpentAtOrigin ≤ ORIGIN_RANKING_LAST →
      maybeUpdateTopOriginsMap m c r = some e ∧
      maybeUpdateTopOriginsMap m c
        (contenderBattlesOriginAt m ORIGIN_RANKING_FIRST
          c.originVisitData.timeSpentAtOrigin) = some c) := by
  set R := contenderBattlesOriginAt m ORIGIN_RANKING_FIRST
    c.originVisitData.timeSpentAtOrigin with hRdef
  obtain ⟨habove, hbelow⟩ := placement_above m c R hRdef
  have hrR : r < R := hbelow r e hinv h1 h5 he (le_of_eq ht)
  obtain ⟨hd1, _, _, _⟩ := maybeUpdate_desc m c R hmon hpos hRdef
  refine ⟨hrR, hd1, fun hR5 => ⟨?_, ?_⟩⟩
  · rw [maybeUpdate_untouched m c R hmon hpos hRdef r hrR]
    exact he
  · exact maybeUpdate_at_placement m c R hmon hpos hRdef hR5

/-- Claim C2 witness: concrete instantiation — origin `"a"` with time 10 at
rank 1, resubmitted with identical time 10, keeps its old entry at rank 1 and
gains a second copy at the computed placement ranking (rank 2). -/
theorem c2_resubmission_witness :
    maybeUpdateTopOriginsMap
        (fun r => if r = 1 then some (mkContender "a" 10) else none)
        (mkContender "a" 10) 1 = some (mkContender "a" 10) ∧
    maybeUpdateTopOriginsMap
        (fun r => if r = 1 then some (mkContender "a" 10) else none)
        (mkContender "a" 10)
        (contenderBattlesOriginAt
          (fun r => if r = 1 then some (mkContender "a" 10) else none)
          ORIGIN_RANKING_FIRST
          (mkContender "a" 10).originVisitData.timeSpentAtOrigin) =
      some (mkContender "a" 10) :=
  (c2_resubmission
      (fun r => if r = 1 then some (mkContender "a" 10) else none)
      (mkContender "a" 10) (mkContender "a" 10) 1
      (boardInv_single (mkContender "a" 10)) (by decide) (by decide)
      rfl rfl rfl rfl (by decide)).2.2
    (by simp [contenderBattlesOriginAt, mkContender,
      ORIGIN_RANKING_FIRST, ORIGIN_RANKING_LAST])

/-- Claim C4: for every monetized candidate with positive time spent, the
placement rank computed by `contenderBattlesOriginAt` from rank 1 is the
first rank whose slot is unoccupied or strictly beaten (every earlier rank
holds at least the candidate's time), it lies in `1..6`, rank 6 means the
candidate is discarded with the board unchanged, and an incumbent whose time
spent equals the candidate's keeps its rank and entry. -/
theorem c4_placement (m : TopOriginsMap) (c : AkitaOriginData)
    (hinv : boardInv m) (hmon : c.isCurrentlyMonetized = true)
    (hpos : 0 < c.originVisitData.timeSpentAtOrigin) :
    (1 ≤ contenderBattlesOriginAt m ORIGIN_RANKING_FIRST
        c.originVisitData.timeSpentAtOrigin ∧
      contenderBattlesOriginAt m ORIGIN_RANKING_FIRST
        c.originVisitData.timeSpentAtOrigin ≤ 6) ∧
    (∀ j, 1 ≤ j → j < contenderBattlesOriginAt m ORIGIN_RANKING_FIRST
        c.originVisitData.timeSpentAtOrigin →
      ∃ holder, m j = some holder ∧
        c.originVisitData.timeSpentAtOrigin ≤ timeSpentOf holder) ∧
    (contenderBattlesOriginAt m ORIGIN_RANKING_FIRST
        c.originVisitData.timeSpentAtOrigin ≤ ORIGIN_RANKING_LAST →
      m (contenderBattlesOriginAt m ORIGIN_RANKING_FIRST
        c.originVisitData.timeSpentAtOrigin) = none ∨
      ∃ holder, m (contenderBattlesOriginAt m ORIGIN_RANKING_FIRST
          c.originVisitData.timeSpentAtOrigin) = some holder ∧
        timeSpentOf holder < c.originVisitData.timeSpentAtOrigin) ∧
    (ORIGIN_RANKING_LAST < contenderBattlesOriginAt m ORIGIN_RANKING_FIRST
        c.originVisitData.timeSpentAtOrigin →
      maybeUpdateTopOriginsMap m c = m) ∧
    (∀ r holder, 1 ≤ r → r ≤ ORIGIN_RANKING_LAST → m r = some holder →
      timeSpentOf holder = c.originVisitData.timeSpentAtOrigin →
      maybeUpdateTopOriginsMap m c r = some holder) := by
  set R := contenderBattlesOriginAt m ORIGIN_RANKING_FIRST
    c.originVisitData.timeSpentAtOrigin with hRdef
  obtain ⟨hR1, hR6, hstop, _⟩ :=
    contenderBattlesOriginAt_props m c.originVisitData.timeSpentAtOrigin
      ORIGIN_RANKING_FIRST
  rw [← hRdef] at hR1 hR6 hstop
  obtain ⟨habove, hbelow⟩ := placement_above m c R hRdef
  obtain ⟨hd1, _, _, _⟩ := maybeUpdate_desc m c R hmon hpos hRdef
  have hmax : max ORIGIN_RANKING_FIRST 6 = 6 := by decide
  refine ⟨⟨hR1, by omega⟩, habove, ?_, hd1, ?_⟩
  · intro hR5
    rcases hstop with h5 | hnone | ⟨holder, hh, hbeat⟩
    · exfalso
      simp only [ORIGIN_RANKING_FIRST, ORIGIN_RANKING_LAST] at h5 hR5
      omega
    · exact Or.inl hnone
    · exact Or.inr ⟨holder, hh, hbeat⟩
  · intro r holder hr1 hr5 hre hteq
    have hrR : r < R := hbelow r holder hinv hr1 hr5 hre (le_of_eq hteq.symm)
    rw [maybeUpdate_untouched m c R hmon hpos hRdef r hrR]
    exact hre

/-- Claim C4 witness: on the invariant board holding origin `"b"` with time
20 at rank 1, the monetized candidate `"a"` with the equal time 20 leaves the
incumbent at rank 1 untouched. -/
theorem c4_placement_witness :
    maybeUpdateTopOriginsMap
      (fun r => if r = 1 then some (mkContender "b" 20) else none)
      (mkContender "a" 20) 1 = some (mkContender "b" 20) :=
  (c4_placement (fun r => if r = 1 then some (mkContender "b" 20) else none)
      (mkContender "a" 20) (boardInv_single (mkContender "b" 20)) rfl
      (by decide)).2.2.2.2
    1 (mkContender "b" 20) (by decide) (by decide) rfl rfl

/-- Claim C5: when the placement rank `R` is occupied by a different origin,
the candidate is inserted at `R`, every entry from `R` on shifts one rank
lower (the one shifted past rank 5 is dropped), ranks above `R` and keys past
the board are untouched; and the concrete six-candidate scenario of the claim
produces ranks `[50,40,30,20,10]` and then `[50,40,30,25,20]`, dropping the
origin whose time spent was 10. -/
theorem c5_cascade_insert (m : TopOriginsMap) (c holder : AkitaOriginData)
    (hmon : c.isCurrentlyMonetized = true)
    (hpos : 0 < c.originVisitData.timeSpentAtOrigin)
    (hR5 : contenderBattlesOriginAt m ORIGIN_RANKING_FIRST
      c.originVisitData.timeSpentAtOrigin ≤ ORIGIN_RANKING_LAST)
    (hocc : m (contenderBattlesOriginAt m ORIGIN_RANKING_FIRST
      c.originVisitData.timeSpentAtOrigin) = some holder)
    (horig : c.origin ≠ holder.origin) :
    ((∀ j, j < contenderBattlesOriginAt m ORIGIN_RANKING_FIRST
        c.originVisitData.timeSpentAtOrigin →
        maybeUpdateTopOriginsMap m c j = m j) ∧
      maybeUpdateTopOriginsMap m c
        (contenderBattlesOriginAt m ORIGIN_RANKING_FIRST
          c.originVisitData.timeSpentAtOrigin) = some c ∧
      (∀ j, contenderBattlesOriginAt m ORIGIN_RANKING_FIRST
          c.originVisitData.timeSpentAtOrigin < j → j ≤ ORIGIN_RANKING_LAST →
        maybeUpdateTopOriginsMap m c j = m (j - 1)) ∧
      (∀ j, ORIGIN_RANKING_LAST < j → maybeUpdateTopOriginsMap m c j = m j)) ∧
    (runCandidates [mkContender "a" 10, mkContender "b" 20, mkContender "c" 30,
        mkContender "d" 40, mkContender "e" 50] 1 = some (mkContender "e" 50) ∧
      runCandidates [mkContender "a" 10, mkContender "b" 20, mkContender "c" 30,
        mkContender "d" 40, mkContender "e" 50] 2 = some (mkContender "d" 40) ∧
      runCandidates [mkContender "a" 10, mkContender "b" 20, mkContender "c" 30,
        mkContender "d" 40, mkContender "e" 50] 3 = some (mkContender "c" 30) ∧
      runCandidates [mkContender "a" 10, mkContender "b" 20, mkContender "c" 30,
        mkContender "d" 40, mkContender "e" 50] 4 = some (mkContender "b" 20) ∧
      runCandidates [mkContender "a" 10, mkContender "b" 20, mkContender "c" 30,
        mkContender "d" 40, mkContender "e" 50] 5 = some (mkContender "a" 10)) ∧
    (runCandidates [mkContender "a" 10, mkContender "b" 20, mkContender "c" 30,
        mkContender "d" 40, mkContender "e" 50, mkContender "f" 25] 1 =
        some (mkContender "e" 50) ∧
      runCandidates [mkContender "a" 10, mkContender "b" 20, mkContender "c" 30,
        mkContender "d" 40, mkContender "e" 50, mkContender "f" 25] 2 =
        some (mkContender "d" 40) ∧
      runCandidates [mkContender "a" 10, mkContender "b" 20, mkContender "c" 30,
        mkContender "d" 40, mkContender "e" 50, mkContender "f" 25] 3 =
        some (mkContender "c" 30) ∧
      runCandidates [mkContender "a" 10, mkContender "b" 20, mkContender "c" 30,
        mkContender "d" 40, mkContender "e" 50, mkContender "f" 25] 4 =
        some (mkContender "f" 25) ∧
      runCandidates [mkContender "a" 10, mkContender "b" 20, mkContender "c" 30,
        mkContender "d" 40, mkContender "e" 50, mkContender "f" 25] 5 =
        some (mkContender "b" 20)) := by
  set R := contenderBattlesOriginAt m ORIGIN_RANKING_FIRST
    c.originVisitData.timeSpentAtOrigin with hRdef
  obtain ⟨_, _, _, hd4⟩ := maybeUpdate_desc m c R hmon hpos hRdef
  refine ⟨⟨?_, ?_, ?_, ?_⟩, ?_, ?_⟩
  · intro j hj
    exact maybeUpdate_untouched m c R hmon hpos hRdef j hj
  · exact maybeUpdate_at_placement m c R hmon hpos hRdef hR5
  · intro j hjR hj5
    rw [hd4 holder hocc hR5 horig, reorderTopOriginsMap_eq,
      if_neg (by omega), if_neg (by omega)]
  · intro j hj5
    rw [hd4 holder hocc hR5 horig, reorderTopOriginsMap_eq,
      if_pos (Or.inr hj5)]
  · refine ⟨?_, ?_, ?_, ?_, ?_⟩ <;>
      simp [runCandidates, maybeUpdateTopOriginsMap, contenderBattlesOriginAt,
        reorderTopOriginsMap, emptyTopOriginsMap, mkContender,
        ORIGIN_RANKING_FIRST, ORIGIN_RANKING_LAST]
  · refine ⟨?_, ?_, ?_, ?_, ?_⟩ <;>
      simp [runCandidates, maybeUpdateTopOriginsMap, contenderBattlesOriginAt,
        reorderTopOriginsMap, emptyTopOriginsMap, mkContender,
        ORIGIN_RANKING_FIRST, ORIGIN_RANKING_LAST]

/-- Claim C5 witness: on the board holding origin `"b"` with time 20 at rank
1, the monetized candidate `"a"` with time 30 is inserted at its placement
rank 1 and the incumbent shifts to rank 2. -/
theorem c5_cascade_insert_witness :
    maybeUpdateTopOriginsMap
      (fun r => if r = 1 then some (mkContender "b" 20) else none)
      (mkContender "a" 30)
      (contenderBattlesOriginAt
        (fun r => if r = 1 then some (mkContender "b" 20) else none)
        ORIGIN_RANKING_FIRST
        (mkContender "a" 30).originVisitData.timeSpentAtOrigin) =
      some (mkContender "a" 30) ∧
    maybeUpdateTopOriginsMap
      (fun r => if r = 1 then some (mkContender "b" 20) else none)
      (mkContender "a" 30) 2 = some (mkContender "b" 20) := by
  have h := c5_cascade_insert
    (fun r => if r = 1 then some (mkContender "b" 20) else none)
    (mkContender "a" 30) (mkContender "b" 20) rfl (by decide)
    (by simp [contenderBattlesOriginAt, mkContender, ORIGIN_RANKING_FIRST,
      ORIGIN_RANKING_LAST])
    (by simp [contenderBattlesOriginAt, mkContender, ORIGIN_RANKING_FIRST,
      ORIGIN_RANKING_LAST])
    (by simp [mkContender])
  refine ⟨h.1.2.1, ?_⟩
  have h2 := h.1.2.2.1 2
    (by simp [contenderBattlesOriginAt, mkContender, ORIGIN_RANKING_FIRST,
      ORIGIN_RANKING_LAST])
    (by decide)
  rw [h2]
  simp

/-- Claim C1 counterexample: from the empty board, submitting the monetized
contender with origin `"a"` and time spent 10 twice leaves origin `"a"`
occupying both rank 1 and rank 2, so an origin identifier can occupy two
different slots at once — refuting the uniqueness half of the claim. -/
theorem c1_counterexample :
    runCandidates [mkContender "a" 10, mkContender "a" 10] 1 =
        some (mkContender "a" 10) ∧
    runCandidates [mkContender "a" 10, mkContender "a" 10] 2 =
        some (mkContender "a" 10) ∧
    (1 : Nat) ≠ 2 := by
  refine ⟨?_, ?_, by omega⟩ <;>
    simp [runCandidates, maybeUpdateTopOriginsMap, contenderBattlesOriginAt,
      emptyTopOriginsMap, mkContender, ORIGIN_RANKING_FIRST, ORIGIN_RANKING_LAST]

/-- Claim C1 (amended): after any sequence of `considerCandidate`
(`maybeUpdateTopOriginsMap`) calls starting from an empty board, the board's
occupied ranks have non-increasing time-spent values as the rank index grows.
The uniqueness half of the original claim is dropped: an origin identifier
can occupy two different slots at once (see the counterexample). -/
theorem c1_board_sorted (contenders : List AkitaOriginData) :
    boardSorted (runCandidates contenders) :=
  (boardInv_runCandidates contenders).2

/-- Claim C1 witness: concrete instantiation of the amended theorem on the
two-element run `[b ↦ 20, a ↦ 10]`, ranks 1 and 2. -/
theorem c1_board_sorted_witness :
    timeSpentOf (mkContender "a" 10) ≤ timeSpentOf (mkContender "b" 20) := by
  refine c1_board_sorted [mkContender "b" 20, mkContender "a" 10] 1 2
    (mkContender "b" 20) (mkContender "a" 10) (by decide) (by decide) (by decide)
    ?_ ?_ <;>
    simp [runCandidates, maybeUpdateTopOriginsMap, contenderBattlesOriginAt,
      emptyTopOriginsMap, mkContender, ORIGIN_RANKING_FIRST, ORIGIN_RANKING_LAST]

/-- `reorderSteps` counts exactly `6 - ranking` shift steps (0 once the rank
is past the board). -/
theorem reorderSteps_eq : ∀ fuel ranking, 6 ≤ ranking + fuel →
    reorderSteps ranking = 6 - ranking := by
  intro fuel
  induction fuel with
  | zero =>
    intro ranking hr
    rw [reorderSteps, dif_neg (by simp only [ORIGIN_RANKING_LAST]; omega)]
    omega
  | succ fuel ih =>
    intro ranking hr
    by_cases hlast : ranking ≤ ORIGIN_RANKING_LAST
    · rw [reorderSteps, dif_pos hlast]
      rw [ih (ranking + 1) (by omega)]
      simp only [ORIGIN_RANKING_LAST] at hlast
      omega
    · rw [reorderSteps, dif_neg hlast]
      simp only [ORIGIN_RANKING_LAST] at hlast
      omega

/-- `contenderBattleSteps` performs at most `6 - ranking` recursive calls. -/
theorem contenderBattleSteps_le (m : TopOriginsMap) (t : Int) :
    ∀ fuel ranking, 6 ≤ ranking + fuel →
      contenderBattleSteps m ranking t ≤ 6 - ranking := by
  intro fuel
  induction fuel with
  | zero =>
    intro ranking hr
    rw [contenderBattleSteps, dif_pos (by simp only [ORIGIN_RANKING_LAST]; omega)]
    omega
  | succ fuel ih =>
    intro ranking hr
    by_cases hlast : ranking > ORIGIN_RANKING_LAST
    · rw [contenderBattleSteps, dif_pos hlast]
      omega
    · cases hmr : m ranking with
      | none =>
        rw [contenderBattleSteps, dif_neg hlast]
        simp only [hmr]
        omega
      | some holder =>
        rw [contenderBattleSteps, dif_neg hlast]
        simp only [hmr]
        by_cases hbeat : t > holder.originVisitData.timeSpentAtOrigin
        · rw [if_pos hbeat]
          omega
        · rw [if_neg hbeat]
          have := ih (ranking + 1) (by omega)
          simp only [ORIGIN_RANKING_LAST] at hlast
          omega

/-- Claim C8: for every starting rank `r` with `1 ≤ r ≤ 6` the rank search
returns a rank between `r` and 6 inclusive; the rank search makes at most
`6 − r` recursive calls and the cascade performs at most `6 − r` shift
steps; and both recursions stop immediately once the rank exceeds 5 (the
search returns its argument and the cascade leaves the board untouched with
zero steps). -/
theorem c8_termination (m : TopOriginsMap) (t : Int) (x : Option AkitaOriginData)
    (r : Nat) (h1 : 1 ≤ r) :
    (r ≤ 6 → r ≤ contenderBattlesOriginAt m r t ∧
      contenderBattlesOriginAt m r t ≤ 6) ∧
    contenderBattleSteps m r t ≤ 6 - r ∧
    reorderSteps r ≤ 6 - r ∧
    (ORIGIN_RANKING_LAST < r →
      contenderBattlesOriginAt m r t = r ∧ reorderTopOriginsMap m r x = m ∧
      reorderSteps r = 0) := by
  obtain ⟨hp1, hp2, _, _⟩ := contenderBattlesOriginAt_props m t r
  refine ⟨fun h6 => ⟨hp1, ?_⟩, contenderBattleSteps_le m t 6 r (by omega),
    le_of_eq (reorderSteps_eq 6 r (by omega)), fun h5 => ⟨?_, ?_, ?_⟩⟩
  · have hmax : max r 6 = 6 := by omega
    omega
  · rw [contenderBattlesOriginAt, dif_pos h5]
  · rw [reorderTopOriginsMap,
      dif_neg (by exact fun hle => absurd h5 (not_lt.mpr hle))]
  · rw [reorderSteps,
      dif_neg (by exact fun hle => absurd h5 (not_lt.mpr hle))]


/-- Claim C8 witness: concrete instantiation at starting rank 1 on the empty
board. -/
theorem c8_termination_witness :
    (1 : Nat) ≤ 1 ∧ reorderSteps 1 ≤ 6 - 1 :=
  ⟨by decide, (c8_termination emptyTopOriginsMap 0 none 1 (by decide)).2.2.1⟩

/-- Claim C6: `updateTimeSpent` adds `recentTimeSpent` to the overall total
unconditionally, adds it to the monetized total iff the record is currently
monetized, always submits the record to the top-origins board (the new board
is `maybeUpdateTopOriginsMap` of the old), a non-monetized record leaves the
board unchanged (the board filters it), and no other field changes. -/
theorem c6_updateTimeSpent (stats : AkitaOriginStats) (recentTimeSpent : Int)
    (originData : AkitaOriginData) (_hnn : 0 ≤ recentTimeSpent) :
    (updateTimeSpent stats recentTimeSpent originData).totalTimeSpent =
      stats.totalTimeSpent + recentTimeSpent ∧
    (updateTimeSpent stats recentTimeSpent originData).totalMonetizedTimeSpent =
      stats.totalMonetizedTimeSpent +
        (if originData.isCurrentlyMonetized then recentTimeSpent else 0) ∧
    (updateTimeSpent stats recentTimeSpent originData).topOriginsMap =
      maybeUpdateTopOriginsMap stats.topOriginsMap originData ∧
    (originData.isCurrentlyMonetized = false →
      maybeUpdateTopOriginsMap stats.topOriginsMap originData =
        stats.topOriginsMap) ∧
    (updateTimeSpent stats recentTimeSpent originData).totalVisits =
      stats.totalVisits ∧
    (updateTimeSpent stats recentTimeSpent originData).totalMonetizedVisits =
      stats.totalMonetizedVisits ∧
    (updateTimeSpent stats recentTimeSpent originData).needsSomeLoveMap =
      stats.needsSomeLoveMap ∧
    (updateTimeSpent stats recentTimeSpent originData).totalSentAssetsMap =
      stats.totalSentAssetsMap := by
  have hboard : originData.isCurrentlyMonetized = false →
      maybeUpdateTopOriginsMap stats.topOriginsMap originData =
        stats.topOriginsMap := by
    intro hfalse
    unfold maybeUpdateTopOriginsMap
    rw [hfalse]
    simp
  unfold updateTimeSpent updateTotalTimeSpent updateTotalMonetizedTimeSpent
  by_cases hm : originData.isCurrentlyMonetized <;> simp [hm, hboard]

/-- Claim C6 witness: concrete instantiation on a fresh aggregator with 5 ms
of recent time. -/
theorem c6_updateTimeSpent_witness :
    (0 : Int) ≤ 5 ∧
    (updateTimeSpent AkitaOriginStats.new 5 (mkContender "a" 10)).totalTimeSpent =
      AkitaOriginStats.new.totalTimeSpent + 5 :=
  ⟨by decide,
    (c6_updateTimeSpent AkitaOriginStats.new 5 (mkContender "a" 10) (by decide)).1⟩

/-- Claim C9: `incrementVisits` increments `totalVisits` by exactly 1,
increments `totalMonetizedVisits` by exactly 1 iff the flag is true, and
leaves the time totals, the top-origins board, the needs-attention map and
the asset map unchanged. -/
theorem c9_incrementVisits (stats : AkitaOriginStats) (flag : Bool) :
    (incrementVisits stats flag).totalVisits = stats.totalVisits + 1 ∧
    (incrementVisits stats flag).totalMonetizedVisits =
      stats.totalMonetizedVisits + (if flag then 1 else 0) ∧
    (incrementVisits stats flag).totalTimeSpent = stats.totalTimeSpent ∧
    (incrementVisits stats flag).totalMonetizedTimeSpent =
      stats.totalMonetizedTimeSpent ∧
    (incrementVisits stats flag).topOriginsMap = stats.topOriginsMap ∧
    (incrementVisits stats flag).needsSomeLoveMap = stats.needsSomeLoveMap ∧
    (incrementVisits stats flag).totalSentAssetsMap = stats.totalSentAssetsMap := by
  unfold incrementVisits incrementTotalVisits incrementTotalMonetizedVisits
  cases flag <;> simp

/-- Claim C3 counterexample: a call with a missing amount (destructured to
`null`), the numeric scale 3 and the currency code `"USD"` is not a no-op:
JavaScript `isNaN(null)` is false, so the guard passes and an entry for
`"USD"` is created in `totalSentAssetsMap`, which the claim says must stay
unchanged. -/
theorem c3_counterexample :
    (updateAssetsMapWithAsset AkitaOriginStats.new
        { paymentPointer := none, amount := JSNum.null,
          assetScale := JSNum.num 3,
          assetCode := some "USD" }).totalSentAssetsMap "USD" ≠ none ∧
    AkitaOriginStats.new.totalSentAssetsMap "USD" = none := by
  constructor
  · simp [updateAssetsMapWithAsset, jsIsNaN, jsTruthyCode, AkitaOriginStats.new,
      WebMonetizationAsset.new, WebMonetizationAsset.addAmount]
  · rfl

/-- Claim C3 (amended): `updateAssetsMapWithAsset` is a silent no-op iff the
amount is a non-numeric (NaN-coercing) value, or the scale is, or the
currency code is empty or missing.  A missing amount or scale is destructured
to `null`, which passes the `isNaN` guard (`isNaN(null)` is false), so with a
non-empty currency code the call still creates or updates the entry. -/
theorem c3_asset_guard (stats : AkitaOriginStats) (paymentData : PaymentData) :
    ((jsIsNaN paymentData.amount = true ∨ jsIsNaN paymentData.assetScale = true ∨
        jsTruthyCode paymentData.assetCode = false) →
      updateAssetsMapWithAsset stats paymentData = stats) ∧
    (jsIsNaN paymentData.amount = false → jsIsNaN paymentData.assetScale = false →
      jsTruthyCode paymentData.assetCode = true →
      (updateAssetsMapWithAsset stats paymentData).totalSentAssetsMap
          (paymentData.assetCode.getD "") ≠ none) ∧
    (paymentData.amount = JSNum.null → jsIsNaN paymentData.amount = false) := by
  refine ⟨?_, ?_, ?_⟩
  · intro h
    unfold updateAssetsMapWithAsset
    rcases h with h | h | h <;> simp [h]
  · intro ha hs hc
    unfold updateAssetsMapWithAsset
    simp only [ha, hs, hc]
    cases hcode : stats.totalSentAssetsMap (paymentData.assetCode.getD "") with
    | none => simp [hcode]
    | some a => simp [hcode]
  · intro h
    rw [h]
    rfl

/-- Claim C3 witness: a NaN-coercing amount with an otherwise valid scale and
code is a silent no-op. -/
theorem c3_asset_guard_witness :
    updateAssetsMapWithAsset AkitaOriginStats.new
      { paymentPointer := none, amount := JSNum.nan,
        assetScale := JSNum.num 3, assetCode := some "USD" } =
      AkitaOriginStats.new :=
  (c3_asset_guard AkitaOriginStats.new
    { paymentPointer := none, amount := JSNum.nan,
      assetScale := JSNum.num 3, assetCode := some "USD" }).1 (Or.inl rfl)

/-- `AkitaOriginData.fromObject` is the identity on well-formed entries. -/
theorem originData_fromObject_id (a : AkitaOriginData) :
    AkitaOriginData.fromObject a = a := rfl

/-- `WebMonetizationAsset.fromObject` is the identity on well-formed entries. -/
theorem asset_fromObject_id (a : WebMonetizationAsset) :
    WebMonetizationAsset.fromObject (some a) = a := rfl

/-- Claim C7: reconstructing with `fromObject` from the plain object
serialized from a state yields the same four running totals, the same board
entry (origin, time spent) at every rank, and the same per-currency ledger
entry at every currency code. -/
theorem c7_round_trip (stats : AkitaOriginStats) :
    (AkitaOriginStats.fromObject (AkitaOriginStats.toObject stats)).totalTimeSpent =
      stats.totalTimeSpent ∧
    (AkitaOriginStats.fromObject
        (AkitaOriginStats.toObject stats)).totalMonetizedTimeSpent =
      stats.totalMonetizedTimeSpent ∧
    (AkitaOriginStats.fromObject (AkitaOriginStats.toObject stats)).totalVisits =
      stats.totalVisits ∧
    (AkitaOriginStats.fromObject
        (AkitaOriginStats.toObject stats)).totalMonetizedVisits =
      stats.totalMonetizedVisits ∧
    (∀ r, (AkitaOriginStats.fromObject
        (AkitaOriginStats.toObject stats)).topOriginsMap r =
      stats.topOriginsMap r) ∧
    (∀ k, (AkitaOriginStats.fromObject
        (AkitaOriginStats.toObject stats)).totalSentAssetsMap k =
      stats.totalSentAssetsMap k) := by
  refine ⟨rfl, rfl, rfl, rfl, ?_, ?_⟩
  · intro r
    unfold AkitaOriginStats.fromObject AkitaOriginStats.toObject
    cases hr : stats.topOriginsMap r with
    | none => simp [hr]
    | some a => simp [hr, originData_fromObject_id]
  · intro k
    unfold AkitaOriginStats.fromObject AkitaOriginStats.toObject
    cases hk : stats.totalSentAssetsMap k with
    | none => simp [hk]
    | some a => simp [hk, asset_fromObject_id]

/-- Claim C10: during reconstruction, `fromObject` silently drops a
null-valued entry of the input's `topOriginsMap` and `needsSomeLoveMap`
(a board slot holding a null entry does not survive the round trip), while a
present entry of `totalSentAssetsMap` — even a null one — is passed to the
asset reconstruction without such a guard and yields a present entry. -/
theorem c10_fromObject_guards (o : AkitaOriginStatsObj) (r : Nat) (k : String) :
    (o.topOriginsMap r = JVal.jnull →
      (AkitaOriginStats.fromObject o).topOriginsMap r = none) ∧
    (o.needsSomeLoveMap k = JVal.jnull →
      (AkitaOriginStats.fromObject o).needsSomeLoveMap k = none) ∧
    (o.totalSentAssetsMap k = JVal.jnull →
      (AkitaOriginStats.fromObject o).totalSentAssetsMap k =
        some (WebMonetizationAsset.fromObject none)) ∧
    (o.totalSentAssetsMap k ≠ JVal.absent →
      (AkitaOriginStats.fromObject o).totalSentAssetsMap k ≠ none) := by
  refine ⟨?_, ?_, ?_, ?_⟩
  · intro h
    unfold AkitaOriginStats.fromObject
    simp [h]
  · intro h
    unfold AkitaOriginStats.fromObject
    simp [h]
  · intro h
    unfold AkitaOriginStats.fromObject
    simp [h]
  · intro h
    unfold AkitaOriginStats.fromObject
    cases hv : o.totalSentAssetsMap k with
    | absent => exact absurd hv h
    | jnull => simp [hv]
    | jval a => simp [hv]

/-- Claim C10 witness: a plain object whose board has a null entry at rank 1
reconstructs with rank 1 absent. -/
theorem c10_fromObject_guards_witness :
    (AkitaOriginStats.fromObject
      { totalTimeSpent := 0, totalMonetizedTimeSpent := 0, totalVisits := 0,
        totalMonetizedVisits := 0,
        topOriginsMap := fun r => if r = 1 then JVal.jnull else JVal.absent,
        needsSomeLoveMap := fun _ => JVal.absent,
        totalSentAssetsMap := fun _ => JVal.jnull }).topOriginsMap 1 = none :=
  (c10_fromObject_guards
    { totalTimeSpent := 0, totalMonetizedTimeSpent := 0, totalVisits := 0,
      totalMonetizedVisits := 0,
      topOriginsMap := fun r => if r = 1 then JVal.jnull else JVal.absent,
      needsSomeLoveMap := fun _ => JVal.absent,
      totalSentAssetsMap := fun _ => JVal.jnull } 1 "USD").1 rfl

end Akita
